import Mathlib

/-!
# Verification of the Scriptlets core

Shallow embedding of the scriptlets covered by the specification:
`json-prune`, `remove-attr`, `prevent-requestAnimationFrame` and
`trusted-click-elem`, together with the shared helpers they import.

The helpers module (`../helpers`) is not part of the provided sources;
the helpers used here (`getPropertyInChain`, `parseFlags`, `toRegExp`,
`startsWith`) are modelled from the specification, as marked in their
doc comments.  Everything else is translated directly from the sources
under `src/`.
-/

/-! ## JavaScript string primitives

The sources use `String.prototype.indexOf`, `split`, `trim`, `slice` and
`startsWith`-style prefix tests.  They are modelled here on `List Char`,
with structural recursion so that every definition evaluates by `decide`.
-/

/-- Character-list prefix test: `startsWithChars hay pat` is true when
`pat` is an initial segment of `hay`. -/
def startsWithChars : List Char → List Char → Bool
  | _, [] => true
  | [], _ :: _ => false
  | c :: t, p :: pt => (p == c) && startsWithChars t pt

/-- Auxiliary scan for `jsIndexOf`: position of the first occurrence of
`pat` in the remaining haystack, counting from `i`; `-1` when absent. -/
def indexOfAux (pat : List Char) : List Char → Int → Int
  | [], i => if startsWithChars [] pat then i else -1
  | c :: t, i => if startsWithChars (c :: t) pat then i else indexOfAux pat t (i + 1)

/-- `s.indexOf(pat)` of JavaScript: index of the first occurrence of
`pat` in `s`, or `-1`. -/
def jsIndexOf (s pat : String) : Int :=
  indexOfAux pat.data s.data 0

/-- `s.indexOf(pat) !== -1`: substring occurrence test. -/
def hasSubstr (s pat : String) : Bool :=
  jsIndexOf s pat != -1

/-- Auxiliary splitter for `jsSplitChar`, accumulating the current piece
in reverse. -/
def splitCharAux (sep : Char) : List Char → List Char → List String
  | [], acc => [⟨acc.reverse⟩]
  | c :: rest, acc =>
    if c == sep then (⟨acc.reverse⟩ : String) :: splitCharAux sep rest []
    else splitCharAux sep rest (c :: acc)

/-- `s.split(sep)` of JavaScript for a single-character separator:
`"" ↦ [""]`, `"a..b" ↦ ["a", "", "b"]`. -/
def jsSplitChar (s : String) (sep : Char) : List String :=
  splitCharAux sep s.data []

/-- Whitespace test used by `trim`. -/
def isWsChar (c : Char) : Bool :=
  c == ' ' || c == '\t' || c == '\n' || c == '\r'

/-- Drop leading whitespace characters. -/
def dropWs : List Char → List Char
  | [] => []
  | c :: t => if isWsChar c then dropWs t else c :: t

/-- `s.trim()` of JavaScript: strip whitespace from both ends. -/
def jsTrim (s : String) : String :=
  ⟨(dropWs (dropWs s.data).reverse).reverse⟩

/-- Last element of a list of strings, `""` when empty; models
`array.pop()` used on the freshly split segments. -/
def lastSegment : List String → String
  | [] => ""
  | [x] => x
  | _ :: x :: t => lastSegment (x :: t)

/-! ## JSON value graphs

`JSON.parse` results are trees of nulls, booleans, numbers, strings,
arrays and objects.  The extra `undef` constructor models the hole that
`delete arr[i]` leaves in an array: reading it yields `undefined` and
enumeration skips it.  `JSON.parse` itself never produces `undef`. -/

inductive JVal where
  | null
  | undef
  | bool (b : Bool)
  | num (n : Int)
  | str (s : String)
  | arr (elems : List JVal)
  | obj (fields : List (String × JVal))

/-- JavaScript truthiness of a parsed value (`if (!root) …`). -/
def jTruthy : JVal → Bool
  | .null => false
  | .undef => false
  | .bool b => b
  | .num n => n != 0
  | .str s => s != ""
  | .arr _ => true
  | .obj _ => true

/-- Is this value the array-hole marker? -/
def JVal.isUndef : JVal → Bool
  | .undef => true
  | _ => false

/-- Raw property read `base[key]`: association lookup on objects, index
lookup on arrays (keys produced by enumeration are decimal indices),
`none` on scalars. -/
def jLookupRaw : JVal → String → Option JVal
  | .obj fs, k => fs.lookup k
  | .arr xs, k =>
    match k.toNat? with
    | some i => xs.get? i
    | none => none
  | _, _ => none

/-- Property read with JavaScript's `undefined` collapsed to `none`:
an array hole reads as `undefined`, i.e. as an absent value. -/
def jGet (v : JVal) (k : String) : Option JVal :=
  match jLookupRaw v k with
  | some .undef => none
  | r => r

/-- `base[key] !== undefined`. -/
def isDefinedAt (v : JVal) (k : String) : Bool :=
  (jGet v k).isSome

/-- Enumerable direct entries of a container (`Object.keys` order):
object fields in declaration order, array elements keyed by their
decimal index; holes are skipped, scalars have no entries. -/
def entriesJ : JVal → List (String × JVal)
  | .obj fs => fs
  | .arr xs => (xs.enum.filter (fun e => !e.2.isUndef)).map (fun e => (toString e.1, e.2))
  | _ => []

/-! ## Path Resolver (modelled from the spec) -/

/-- Modelled from the spec: the helper `getPropertyInChain` lives in
`../helpers`, which is not under `src/`.  Per spec §4.1, the resolver
splits the path on `.` and descends: a concrete segment selects the
value at that key and drops candidates lacking it; a `*` segment with
look-through enabled expands a candidate into all of its enumerable
direct entries, and with look-through disabled is treated as the
literal key `"*"`.  The final segment always yields one `(container,
key)` location per surviving candidate, whether or not the key is
populated there — §4.2 tests the resolved locations for "a defined
value at its final key", and the conjunctive example of §8 (path
`"two"` against `{one:1}` is unsatisfied) requires that an absent final
key still produce its location. -/
def getPropertyInChain (lookThrough : Bool) : List String → JVal → List (JVal × String)
  | [], _ => []
  | [seg], cur =>
    if lookThrough && seg == "*" then
      (entriesJ cur).map (fun e => (cur, e.1))
    else
      [(cur, seg)]
  | seg :: seg2 :: rest, cur =>
    if lookThrough && seg == "*" then
      (entriesJ cur).flatMap (fun e => getPropertyInChain lookThrough (seg2 :: rest) e.2)
    else
      match jGet cur seg with
      | some child => getPropertyInChain lookThrough (seg2 :: rest) child
      | none => []

/-! ## json-prune (`src/src/scriptlets/json-prune.js`) -/

/-- Wildcard classification of `isPruningNeeded`:
`requiredPath.indexOf('.*.') > -1 || requiredPath.indexOf('*.') > -1
|| requiredPath.indexOf('.*') > -1`. -/
def hasWildcardJS (p : String) : Bool :=
  decide (jsIndexOf p ".*." > -1) || decide (jsIndexOf p "*." > -1)
    || decide (jsIndexOf p ".*" > -1)

/-- One iteration of the `requiredPaths` loop of `isPruningNeeded`:
`shouldProcess` starts at `!hasWildcard` and the inner loop folds the
definedness of `details[i].base[nestedPropName]` with `||` (wildcard
path) or `&&` (wildcard-free path). -/
def pathSatisfied (root : JVal) (requiredPath : String) : Bool :=
  let nestedPropName := lastSegment (jsSplitChar requiredPath '.')
  let hasWildcard := hasWildcardJS requiredPath
  let details := getPropertyInChain hasWildcard (jsSplitChar requiredPath '.') root
  details.foldl
    (fun shouldProcess d =>
      if hasWildcard then isDefinedAt d.1 nestedPropName || shouldProcess
      else isDefinedAt d.1 nestedPropName && shouldProcess)
    (!hasWildcard)

/-- `isPruningNeeded` of json-prune.  The JavaScript declares
`let shouldProcess;` (initially `undefined`, modelled as `none`) and the
loop over `requiredPaths` reassigns `shouldProcess = !hasWildcard`
before using it, so each iteration discards the previous path's result:
the returned value is the last path's result alone — and stays
`undefined` when `requiredPaths` is empty. -/
def isPruningNeeded (requiredPaths : List String) (root : JVal) : Option Bool :=
  if jTruthy root = false then some false
  else requiredPaths.foldl (fun _ p => some (pathSatisfied root p)) none

/-- `delete base[prop]`: removes an object field; on an array leaves a
hole; a no-op on scalars and on non-index array keys. -/
def deleteKeyJ : JVal → String → JVal
  | .obj fs, k => .obj (fs.filter (fun f => f.1 != k))
  | .arr xs, k =>
    match k.toNat? with
    | some i => .arr (xs.set i .undef)
    | none => .arr xs
  | v, _ => v

/-- Replace the value at an existing key of a container. -/
def setKeyJ : JVal → String → JVal → JVal
  | .obj fs, k, nv => .obj (fs.map (fun f => if f.1 == k then (f.1, nv) else f))
  | .arr xs, k, nv =>
    match k.toNat? with
    | some i => .arr (xs.set i nv)
    | none => .arr xs
  | v, _, _ => v

/-- Rebuild a container with every enumerable direct entry transformed. -/
def mapEntriesJ (f : JVal → JVal) : JVal → JVal
  | .obj fs => .obj (fs.map (fun p => (p.1, f p.2)))
  | .arr xs => .arr (xs.map f)
  | v => v

/-- The pruning pass of `parseWrapper` for one path:
`getPropertyInChain(r, path, false, true)` (look-through always enabled
here) followed by `delete ownerObj.base[ownerObj.prop]` at every
resolved location.  The parsed value is a tree (no aliasing), so the
reference mutations of the source are reformulated as a recursive
rebuild deleting the same final keys. -/
def pruneAt : List String → JVal → JVal
  | [], v => v
  | [seg], v =>
    if seg == "*" then (entriesJ v).foldl (fun acc e => deleteKeyJ acc e.1) v
    else deleteKeyJ v seg
  | seg :: seg2 :: rest, v =>
    if seg == "*" then mapEntriesJ (fun child => pruneAt (seg2 :: rest) child) v
    else
      match jGet v seg with
      | some child => setKeyJ v seg (pruneAt (seg2 :: rest) child)
      | none => v

/-- `parseWrapper` of json-prune, as a function of the natively parsed
value `r`; the second component records whether `hit` was emitted.
With no prune paths the wrapper only logs and returns `r`; it returns
`r` untouched when `isPruningNeeded(r) === false` (a strict-equality
test, so the `undefined` of an empty `requiredPaths` does not stop the
pruning); otherwise it prunes every path and emits `hit`. -/
def parseWrapper (prunePaths requiredPaths : List String) (r : JVal) : JVal × Bool :=
  match prunePaths with
  | [] => (r, false)
  | _ :: _ =>
    if isPruningNeeded requiredPaths r = some false then (r, false)
    else (prunePaths.foldl (fun acc path => pruneAt (jsSplitChar path '.') acc) r, true)

/-- The parsed value `{one: 1}` of the spec's conjunctive example. -/
def rootOne : JVal := .obj [("one", .num 1)]

/-- C1: the spec claims `isPruningNeeded` is the conjunction over all
entries of `requiredPaths`, and in particular that `["one","two"]`
against `{one:1}` is unsatisfied in either order.  The code reassigns
`shouldProcess = !hasWildcard` at every iteration, so only the last
required path is effective: against `{one:1}` the order
`["two","one"]` yields `true` even though `"two"` is absent, while
`["one","two"]` yields `false`. -/
theorem isPruningNeeded_checks_last_required_path_only :
    isPruningNeeded ["two", "one"] rootOne = some true
      ∧ isPruningNeeded ["one", "two"] rootOne = some false := by
  decide

/-- C5 counterexample: the spec claims the evaluator returns `false` on
an empty required-path list (for truthy roots) and that an
un-special-casing caller would treat the precondition as unsatisfied.
On `{one:1}`, `isPruningNeeded` with no required paths returns
`undefined` (not `false`), and `parseWrapper` — which tests
`=== false` and does not special-case the empty list — proceeds with
the pruning and emits `hit`, i.e. it treats the precondition as
satisfied. -/
theorem isPruningNeeded_empty_requiredPaths_returns_undefined :
    jTruthy rootOne = true
      ∧ isPruningNeeded [] rootOne ≠ some false
      ∧ isPruningNeeded [] rootOne = none
      ∧ (parseWrapper ["example"] [] rootOne).2 = true := by
  decide

/-- C5 amended: for every truthy root the evaluator returns `undefined`
(`none`) on an empty required-path list — neither `true` nor `false` —
and, because `parseWrapper` compares the result against `false` with
strict equality, a caller that does not special-case the empty list
proceeds with the pruning (and emits `hit`) as if the precondition
were satisfied. -/
theorem isPruningNeeded_empty_requiredPaths_amended (root : JVal)
    (h : jTruthy root = true) :
    isPruningNeeded [] root = none
      ∧ ∀ p pp, (parseWrapper (p :: pp) [] root).2 = true := by
  have hnone : isPruningNeeded [] root = none := by
    simp [isPruningNeeded, h]
  refine ⟨hnone, fun p pp => ?_⟩
  simp [parseWrapper, hnone]

/-- C5 amended, witness at `{one:1}` with prune path `"example"`. -/
theorem isPruningNeeded_empty_requiredPaths_amended_witness :
    jTruthy rootOne = true
      ∧ (isPruningNeeded [] rootOne = none
          ∧ ∀ p pp, (parseWrapper (p :: pp) [] rootOne).2 = true) :=
  ⟨by decide, isPruningNeeded_empty_requiredPaths_amended rootOne (by decide)⟩

/-- C7 counterexample: the spec classifies a required path as wildcard
iff some dot-separated segment equals `*`, so the single-segment path
`"*"` should be a wildcard path.  The substring tests of the code
(`'.*.'`, `'*.'`, `'.*'`) all need a dot, so `"*"` is not classified
as wildcard. -/
theorem hasWildcard_star_only_not_wildcard :
    (jsSplitChar "*" '.').contains "*" = true ∧ hasWildcardJS "*" = false := by
  decide

/-- `startsWithChars` decides list-prefixhood. -/
lemma startsWithChars_iff (pat : List Char) :
    ∀ l : List Char, startsWithChars l pat = true ↔ pat <+: l := by
  induction pat with
  | nil =>
    intro l
    simp [startsWithChars]
  | cons p pt ih =>
    intro l
    cases l with
    | nil =>
      simp [startsWithChars]
    | cons c t =>
      simp [startsWithChars, ih, List.cons_prefix_cons, And.comm]

/-- The `indexOf`-based occurrence test decides infixhood, for any
non-negative starting offset. -/
lemma indexOfAux_found_iff (pat : List Char) :
    ∀ (l : List Char) (i : Int), 0 ≤ i → (indexOfAux pat l i > -1 ↔ pat <:+: l) := by
  intro l
  induction l with
  | nil =>
    intro i hi
    by_cases h : startsWithChars [] pat = true
    · have hp : pat <+: ([] : List Char) := (startsWithChars_iff pat []).mp h
      have hpe : pat = [] := List.prefix_nil.mp hp
      subst hpe
      have hinf : ([] : List Char) <:+: [] := ⟨[], [], rfl⟩
      simp [indexOfAux, startsWithChars, hinf]
      omega
    · have hpe : ¬ pat <+: ([] : List Char) := fun hp => h ((startsWithChars_iff pat []).mpr hp)
      have : pat ≠ [] := by
        intro he
        exact hpe (he ▸ List.prefix_refl [])
      simp [indexOfAux, h, List.infix_nil, this]
  | cons c t iht =>
    intro i hi
    by_cases h : startsWithChars (c :: t) pat = true
    · have hp : pat <+: c :: t := (startsWithChars_iff pat (c :: t)).mp h
      have : pat <:+: c :: t := List.infix_cons_iff.mpr (Or.inl hp)
      simp [indexOfAux, h, this]
      omega
    · have hnp : ¬ pat <+: c :: t := fun hp => h ((startsWithChars_iff pat (c :: t)).mpr hp)
      have step := iht (i + 1) (by omega)
      simp only [indexOfAux, h, if_false, Bool.false_eq_true]
      rw [step, List.infix_cons_iff]
      constructor
      · exact Or.inr
      · rintro (hp | hinf)
        · exact absurd hp hnp
        · exact hinf

/-- `jsIndexOf s pat > -1` exactly when `pat` occurs inside `s`. -/
lemma jsIndexOf_found_iff (s pat : String) :
    jsIndexOf s pat > -1 ↔ pat.data <:+: s.data :=
  indexOfAux_found_iff pat.data s.data 0 (by omega)

/-- C7 amended: a required path is classified as wildcard by the code
iff the path contains a `.` immediately followed by `*` or a `*`
immediately followed by `.` — a star adjacent to a dot.  Hence the
single-segment path `"*"` is not classified as wildcard although its
only segment equals `*`, while a path such as `"a.*b"` is classified
as wildcard although none of its segments equals `*`. -/
theorem hasWildcard_iff_star_adjacent_dot (p : String) :
    hasWildcardJS p = true
      ↔ (['.', '*'] <:+: p.data ∨ ['*', '.'] <:+: p.data) := by
  have h1 : (".*." : String).data = ['.', '*', '.'] := by decide
  have h2 : ("*." : String).data = ['*', '.'] := by decide
  have h3 : (".*" : String).data = ['.', '*'] := by decide
  simp only [hasWildcardJS, Bool.or_eq_true, decide_eq_true_eq,
    jsIndexOf_found_iff, h1, h2, h3]
  constructor
  · rintro ((hd | hd) | hd)
    · rcases hd with ⟨s, t, he⟩
      exact Or.inl ⟨s, '.' :: t, by simpa using he⟩
    · exact Or.inr hd
    · exact Or.inl hd
  · rintro (hd | hd)
    · exact Or.inr hd
    · exact Or.inl (Or.inr hd)

/-! ## remove-attr (`src/src/scriptlets/remove-attr.js`) -/

/-- Modelled from the spec: the helper `parseFlags` lives in
`../helpers`, which is not under `src/`.  Per spec §4.3 and the
scriptlet documentation, the `applying` string is split on whitespace
into tokens, the recognized flags are `asap`, `complete` and `stay`,
and unknown tokens are dropped without error; `hasFlag` is list
membership on the parsed set. -/
def parseFlagsSet (applying : String) : List String :=
  (jsSplitChar applying ' ').filter (fun t => t == "asap" || t == "complete" || t == "stay")

/-- Document readiness at the moment the scriptlet is invoked. -/
inductive ReadyState where
  | loading
  | interactive
  | complete
deriving DecidableEq

/-- A DOM element, reduced to the set of attribute names it carries. -/
structure DomNode where
  attrsOn : List String
deriving DecidableEq

/-- `node.removeAttribute(attr)`. -/
def removeAttribute (n : DomNode) (a : String) : DomNode :=
  ⟨n.attrsOn.filter (fun x => x != a)⟩

/-- Inner loop of `rmattr` over the attribute list for one node: each
pass removes the attribute and sets `removed = true`, whether or not
the node carried it. -/
def rmattrNodeStep (attrs : List String) (acc : List DomNode × Bool) (n : DomNode) :
    List DomNode × Bool :=
  let inner := attrs.foldl (fun p attr => (removeAttribute p.1 attr, true)) (n, acc.2)
  (acc.1 ++ [inner.1], inner.2)

/-- `rmattr` of remove-attr, as a function of the
`document.querySelectorAll(selector)` outcome: `none` models a selector
that throws (the `catch` logs and leaves `nodes = []`), `some ns` the
matched nodes.  Returns the rewritten nodes and whether `hit` was
emitted (`if (removed) hit(source)`). -/
def rmattrRun (attrs : List String) (queryResult : Option (List DomNode)) :
    List DomNode × Bool :=
  (queryResult.getD []).foldl (rmattrNodeStep attrs) ([], false)

/-- `!applying.indexOf(' ') !== -1` from the `stay` branch: the `!`
coerces the numeric index to a Boolean, and a Boolean is never
strictly equal (`!==`) to the number `-1`, so the guard is constantly
true.  The two JavaScript coercions are spelled out. -/
def jsNotNum (i : Int) : Bool := i == 0

/-- Strict inequality between a JavaScript Boolean and a number:
values of different types are never strictly equal, so `!==` holds. -/
def jsStrictNeqBoolNum (_ : Bool) (_ : Int) : Bool := true

/-- The `stay`-branch guard `if (!applying.indexOf(' ') !== -1)`. -/
def stayGuard (applying : String) : Bool :=
  jsStrictNeqBoolNum (jsNotNum (jsIndexOf applying " ")) (-1)

/-- Scheduling outcome of `removeAttr(source, attrs, selector,
applying)`: how many times `rmattr` eventually executes over the
document lifecycle (absent further DOM mutations), and whether
`observeDOMChanges(rmattr, true)` is installed.  Listener firing is
resolved against the ready state at invocation: a `DOMContentLoaded`
listener is only added while `readyState === 'loading'` and then fires
at that milestone; the `load` listener is only added while
`readyState !== 'complete'` and then fires at full load. -/
def removeAttrRuns (attrs applying : String) (rs : ReadyState) : Nat × Bool :=
  if attrs == "" then (0, false)
  else
    let flags := parseFlagsSet applying
    let asapRuns : Nat :=
      if flags.contains "asap" then
        match rs with
        | .loading => 1
        | _ => 1
      else 0
    let lateBranch : Nat × Bool :=
      if decide (rs ≠ ReadyState.complete) && flags.contains "complete" then
        (1, flags.contains "stay")
      else if flags.contains "stay" then
        ((if stayGuard applying then 1 else 0), true)
      else (0, false)
    (asapRuns + lateBranch.1, lateBranch.2)

/-- C3: the spec claims the `complete` flag defers the corrective
action to the full-load milestone when it has not been reached and
otherwise runs it immediately, once — in particular
`applying='complete'` on a document whose `readyState` is already
`'complete'` still runs the removal once.  In the code the only
`complete` branch is guarded by `document.readyState !== 'complete'`,
and with the flag set alone no other branch applies: on an
already-complete document `rmattr` runs zero times, while in the
not-yet-complete states it is correctly deferred and runs once. -/
theorem removeAttr_complete_flag_skipped_when_already_complete :
    removeAttrRuns "example" "complete" ReadyState.complete = (0, false)
      ∧ removeAttrRuns "example" "complete" ReadyState.loading = (1, false)
      ∧ removeAttrRuns "example" "complete" ReadyState.interactive = (1, false) := by
  decide

/-- Flag-accumulator form of the inner `rmattr` fold: the final flag is
true exactly when the starting flag was true or the attribute list is
non-empty. -/
lemma rmattr_inner_snd (attrs : List String) :
    ∀ (p : DomNode × Bool),
      (attrs.foldl (fun p attr => (removeAttribute p.1 attr, true)) p).2
        = (p.2 || !attrs.isEmpty) := by
  induction attrs with
  | nil => intro p; simp
  | cons a t ih =>
    intro p
    simp [List.foldl_cons, ih]

/-- Outer-fold form: the `removed` flag ends true exactly when it
started true, or some node was processed with a non-empty attribute
list. -/
lemma rmattr_outer_snd (attrs : List String) :
    ∀ (nodes : List DomNode) (acc : List DomNode × Bool),
      (nodes.foldl (rmattrNodeStep attrs) acc).2
        = (acc.2 || (!nodes.isEmpty && !attrs.isEmpty)) := by
  intro nodes
  induction nodes with
  | nil => intro acc; simp
  | cons n t ih =>
    intro acc
    simp [List.foldl_cons, ih, rmattrNodeStep, rmattr_inner_snd]
    cases acc.2 <;> cases attrs.isEmpty <;> cases t.isEmpty <;> simp

/-- C10: `rmattr` emits `hit` iff the attribute list is non-empty and
the selector matched at least one node — independently of whether any
matched node carried any of the listed attributes, and never when the
selector matched nothing or was invalid (`none`). -/
theorem rmattr_hit_iff_nodes_and_attrs (attrs : List String)
    (queryResult : Option (List DomNode)) :
    (rmattrRun attrs queryResult).2 = true
      ↔ (attrs ≠ [] ∧ queryResult.getD [] ≠ []) := by
  have h := rmattr_outer_snd attrs (queryResult.getD []) ([], false)
  rw [rmattrRun, h]
  cases hq : (queryResult.getD []).isEmpty <;> cases ha : attrs.isEmpty <;>
    simp_all [List.isEmpty_iff]

/-! ## trusted-click-elem (`src/unnamed/part_000`) -/

/-- Modelled from the spec: the helper `toRegExp` lives in
`../helpers/index`, which is not under `src/`.  The scriptlet doc calls
`cookieMatch` "string or regex to match"; for a plain (non-`/…/`)
pattern the built regular expression matches exactly when the pattern
occurs as a substring of the tested string.  Only plain-string
patterns are modelled. -/
def toRegExpTest (pat s : String) : Bool :=
  hasSubstr s pat

/-- The precondition block of `trustedClickElem`.  `hrefMatched` is
`window.location.href.indexOf(hrefMatch) !== -1` when `hrefMatch` is
truthy; `cookieMatched` is `cookieRegex.test(window.location.href)`
when `cookieMatch` is truthy — the source tests the page URL, not
`document.cookie`, which is why the cookie content is an unused
argument here.  The regex test is abstracted as the `test` parameter
(instantiated with `toRegExpTest` for plain-string patterns). -/
def trustedClickPreconditions (test : String → String → Bool)
    (href cookie hrefMatch cookieMatch : String) : Bool :=
  let _ := cookie
  let hrefMatched := if hrefMatch != "" then hasSubstr href hrefMatch else true
  let cookieMatched := if cookieMatch != "" then test cookieMatch href else true
  hrefMatched && cookieMatched

/-- State of the click sequencer: the `currentSelector` variable, the
remaining `selectorsQueue`, whether the `MutationObserver` is still
connected, the number of `hit` calls, and the selectors clicked so
far, in order. -/
structure TCState where
  current : Option String
  queue : List String
  observing : Bool
  hits : Nat
  clicks : List String
deriving DecidableEq

/-- Events driving the machine: a mutation batch delivered with the
set of selectors currently present in the document, or the 5000 ms
timeout. -/
inductive TCEvent where
  | mutation (dom : List String)
  | timeout

/-- `clickHandler` on one mutation batch.  A disconnected observer no
longer delivers batches.  `document.querySelector(currentSelector)`
finds a target iff the selector is present in `dom`; the target is
clicked, the next selector is shifted off the queue, and on a falsy
shifted value (`undefined` from an empty queue, or an empty-string
selector) the observer is disconnected and `hit` fires. -/
def clickStep (dom : List String) (s : TCState) : TCState :=
  match s.observing, s.current with
  | false, _ => s
  | true, none => s
  | true, some cur =>
    if dom.contains cur then
      let cs := s.clicks ++ [cur]
      match s.queue with
      | [] =>
        { current := none, queue := [], observing := false, hits := s.hits + 1, clicks := cs }
      | next :: rest =>
        if next == "" then
          { current := some next, queue := rest, observing := false,
            hits := s.hits + 1, clicks := cs }
        else
          { current := some next, queue := rest, observing := true,
            hits := s.hits, clicks := cs }
    else s

/-- One event step.  The timeout callback is the detached
`observer.disconnect` handed to `setTimeout`: invoked as a plain
function its `this` is the global object, not the observer, and a
native `MutationObserver` method invoked on a non-observer receiver
throws `TypeError` before doing anything — the exception ends the
timer task and the observer is never disconnected, so the machine
state is unchanged. -/
def stepTC (s : TCState) (e : TCEvent) : TCState :=
  match e with
  | .mutation dom => clickStep dom s
  | .timeout => s

/-- Run the machine over a sequence of delivered events. -/
def execTC (s : TCState) (events : List TCEvent) : TCState :=
  events.foldl stepTC s

/-- Initial machine state for a parsed selector queue:
`currentSelector = selectorsQueue.shift()`. -/
def initFromList (q : List String) : TCState :=
  { current := q.head?, queue := q.tail, observing := true, hits := 0, clicks := [] }

/-- `trustedClickElem` up to the observer installation: parse the
`selectors` argument (split on `,`, trim each piece) and set the first
selector as current. -/
def initTC (selectors : String) : TCState :=
  initFromList ((jsSplitChar selectors ',').map jsTrim)

/-- The whole scriptlet body: when the preconditions fail it returns
before any `MutationObserver` is constructed and before `setTimeout`
is called — `none` means no watcher, no timer, no click, no `hit`.
Otherwise the machine starts in `initTC selectors`. -/
def trustedClickElem (test : String → String → Bool)
    (href cookie selectors hrefMatch cookieMatch : String) : Option TCState :=
  if trustedClickPreconditions test href cookie hrefMatch cookieMatch = false then none
  else some (initTC selectors)

/-- C2: the spec claims the timeout unconditionally cancels the
watcher, after which no further click-handler invocation occurs and no
`hit` is emitted if the queue was not exhausted.  The code passes the
detached `observer.disconnect` to `setTimeout`, which throws
`TypeError` when invoked and never disconnects: after the timeout
fires the observer is still connected, and a later mutation batch
still clicks the target and emits `hit`. -/
theorem trustedClickElem_timeout_does_not_disconnect :
    (execTC (initTC "#a") [TCEvent.timeout]).observing = true
      ∧ (execTC (initTC "#a") [TCEvent.timeout, TCEvent.mutation ["#a"]]).clicks = ["#a"]
      ∧ (execTC (initTC "#a") [TCEvent.timeout, TCEvent.mutation ["#a"]]).hits = 1 := by
  decide

/-- C4: the spec claims the cookie precondition is satisfied iff the
regex built from `cookieMatch` matches the document's cookie content.
The code tests the regex against `window.location.href` instead: with
cookies `"consent=true"` matching the pattern `"consent"` and a URL
that does not, the precondition evaluates false and the machine never
starts. -/
theorem trustedClickElem_cookieMatch_tested_against_href :
    toRegExpTest "consent" "consent=true" = true
      ∧ trustedClickPreconditions toRegExpTest
          "https://example.org/page" "consent=true" "" "consent" = false
      ∧ trustedClickElem toRegExpTest
          "https://example.org/page" "consent=true" "#btn" "" "consent" = none := by
  decide

/-- Invariant of the click sequencer: the clicked selectors followed by
the current selector and the remaining queue always spell out the
original target list; while observing no `hit` has fired and a current
selector exists; once disconnected the queue is spent and exactly one
`hit` has fired. -/
def InvTC (q : List String) (s : TCState) : Prop :=
  s.clicks ++ s.current.toList ++ s.queue = q
    ∧ (s.observing = true → s.hits = 0 ∧ s.current ≠ none)
    ∧ (s.observing = false → s.current = none ∧ s.queue = [] ∧ s.hits = 1)

/-- The invariant is preserved by every delivered event, provided no
target selector is the empty string. -/
lemma invTC_step (q : List String) (hs : ∀ x ∈ q, x ≠ "")
    (s : TCState) (hInv : InvTC q s) (e : TCEvent) : InvTC q (stepTC s e) := by
  obtain ⟨hcat, hobsT, hobsF⟩ := hInv
  cases e with
  | timeout => exact ⟨hcat, hobsT, hobsF⟩
  | mutation dom =>
    show InvTC q (clickStep dom s)
    cases hobs : s.observing with
    | false =>
      simpa [clickStep, hobs] using ⟨hcat, hobsT, hobsF⟩
    | true =>
      cases hcur : s.current with
      | none => exact absurd hcur (hobsT hobs).2
      | some cur =>
        have hhits : s.hits = 0 := (hobsT hobs).1
        by_cases hdom : dom.contains cur
        · have hdom' : cur ∈ dom := by simpa using hdom
          cases hq : s.queue with
          | nil =>
            have hclicks : s.clicks ++ [cur] = q := by
              rw [← hcat, hcur, hq]
              simp
            refine ⟨?_, ?_, ?_⟩ <;>
              simp [clickStep, hobs, hcur, hq, hdom', hclicks, hhits]
          | cons next rest =>
            have hmem : next ∈ q := by
              rw [← hcat, hcur, hq]
              simp
            have hnext : ¬ (next == "") = true := by
              simpa using hs next hmem
            have hclicks : (s.clicks ++ [cur]) ++ [next] ++ rest = q := by
              rw [← hcat, hcur, hq]
              simp
            refine ⟨?_, ?_, ?_⟩ <;>
              simp [clickStep, hobs, hcur, hq, hdom', hnext, hhits, ← hclicks]
        · refine ⟨?_, ?_, ?_⟩ <;>
            simp_all [clickStep, hobs, hcur, hdom]

/-- The invariant carries over any sequence of delivered events. -/
lemma invTC_exec (q : List String) (hs : ∀ x ∈ q, x ≠ "") :
    ∀ (events : List TCEvent) (s : TCState),
      InvTC q s → InvTC q (execTC s events) := by
  intro events
  induction events with
  | nil => intro s h; exact h
  | cons e t ih =>
    intro s h
    exact ih (stepTC s e) (invTC_step q hs s h e)

/-- C6: for every non-degenerate target list (no empty selector
strings) and every sequence of delivered events, the clicked selectors
form a prefix of the target list (targets are acted on strictly
front-to-back, a click firing only while its selector is current and
present); `hit` is emitted exactly once when every target has been
clicked and never before, and at that point the watcher has been
disconnected. -/
theorem trustedClickElem_sequence_front_to_back_single_hit
    (q : List String) (hne : q ≠ []) (hs : ∀ x ∈ q, x ≠ "")
    (events : List TCEvent) :
    (execTC (initFromList q) events).clicks <+: q
      ∧ ((execTC (initFromList q) events).clicks = q
          → (execTC (initFromList q) events).observing = false)
      ∧ (execTC (initFromList q) events).hits
          = (if (execTC (initFromList q) events).clicks = q then 1 else 0) := by
  have hinit : InvTC q (initFromList q) := by
    cases q with
    | nil => exact absurd rfl hne
    | cons q0 qt =>
      refine ⟨?_, ?_, ?_⟩ <;> simp [InvTC, initFromList]
  obtain ⟨hcat, hobsT, hobsF⟩ := invTC_exec q hs events (initFromList q) hinit
  set f := execTC (initFromList q) events with hf
  have hpre : f.clicks <+: q := ⟨f.current.toList ++ f.queue, by rw [← List.append_assoc]; exact hcat⟩
  cases hobs : f.observing with
  | true =>
    have hc := hobsT hobs
    have hneq : f.clicks ≠ q := by
      intro he
      obtain ⟨c, hcur⟩ := Option.ne_none_iff_exists'.mp hc.2
      have := congrArg List.length hcat
      rw [he, hcur] at this
      simp at this
    exact ⟨hpre, fun he => absurd he hneq, by rw [if_neg hneq]; exact hc.1⟩
  | false =>
    have hc := hobsF hobs
    have heq : f.clicks = q := by
      rw [← hcat, hc.1, hc.2.1]
      simp
    exact ⟨hpre, fun _ => rfl, by rw [if_pos heq]; exact hc.2.2⟩

/-- C6 witness: targets `["#a", "#b"]`, with `#a` injected first and
then `#b`; both are clicked in order and exactly one `hit` fires,
after the last target. -/
theorem trustedClickElem_sequence_witness :
    ((["#a", "#b"] : List String) ≠ [] ∧ (∀ x ∈ (["#a", "#b"] : List String), x ≠ ""))
      ∧ ((execTC (initFromList ["#a", "#b"])
            [TCEvent.mutation ["#a"], TCEvent.mutation ["#a", "#b"]]).clicks
            <+: ["#a", "#b"]
        ∧ ((execTC (initFromList ["#a", "#b"])
              [TCEvent.mutation ["#a"], TCEvent.mutation ["#a", "#b"]]).clicks = ["#a", "#b"]
            → (execTC (initFromList ["#a", "#b"])
                [TCEvent.mutation ["#a"], TCEvent.mutation ["#a", "#b"]]).observing = false)
        ∧ (execTC (initFromList ["#a", "#b"])
            [TCEvent.mutation ["#a"], TCEvent.mutation ["#a", "#b"]]).hits
            = (if (execTC (initFromList ["#a", "#b"])
                  [TCEvent.mutation ["#a"], TCEvent.mutation ["#a", "#b"]]).clicks
                  = ["#a", "#b"] then 1 else 0)) :=
  ⟨⟨by decide, by decide⟩,
    trustedClickElem_sequence_front_to_back_single_hit ["#a", "#b"] (by decide) (by decide)
      [TCEvent.mutation ["#a"], TCEvent.mutation ["#a", "#b"]]⟩

/-! ## prevent-requestAnimationFrame
(`src/src/scriptlets/prevent-requestAnimationFrame.js`) -/

/-- Modelled from the spec: the helper `startsWith` lives in
`../helpers`, which is not under `src/`; per the scriptlet doc and the
argument contract of §6 it tests whether the string starts with the
given marker. -/
def startsWithJS (s pre : String) : Bool :=
  startsWithChars s.data pre.data

/-- `match.slice(1)`: drop the leading marker character. -/
def dropFirstChar (s : String) : String :=
  ⟨s.data.tail⟩

/-- Which callback the wrapper hands to the native
`requestAnimationFrame`. -/
inductive PassedCb where
  | orig
  | noop
deriving DecidableEq

/-- `rafWrapper` of preventRequestAnimationFrame for one call, as a
function of the stringified callback `cbStr = callback.toString()`.
The regex test of `toRegExp(rawMatch)` is abstracted as the `test`
parameter (pattern, tested string).  Returns the callback passed on —
`.orig` means `nativeRequestAnimationFrame.apply(window, [callback,
...args])` with the original callback and arguments unchanged, `.noop`
means `nativeRequestAnimationFrame(noopFunc)` — and whether `hit` was
emitted.  `search = none` is the log-only mode: `hit` carries the log
message and the call is forwarded unchanged. -/
def rafWrapper (test : String → String → Bool) (search : Option String)
    (cbStr : String) : PassedCb × Bool :=
  match search with
  | none => (.orig, true)
  | some m =>
    let doNotMatch := startsWithJS m "!"
    let rawMatch := if doNotMatch then dropFirstChar m else m
    let shouldPrevent := test rawMatch cbStr != doNotMatch
    if shouldPrevent then (.noop, true) else (.orig, false)

/-- C9: a leading `!` inverts the match.  With a `!`-prefixed search,
a call whose stringified callback matches the remainder is forwarded
unchanged to the native `requestAnimationFrame` (no `hit`), and a call
that does not match is defused — the callback replaced by the no-op —
with a `hit` emitted; without the leading `!`, matching calls are
defused with a `hit` and non-matching calls are forwarded unchanged. -/
theorem preventRequestAnimationFrame_invert_marker
    (test : String → String → Bool) (m cbStr : String) :
    (startsWithJS m "!" = true →
        (test (dropFirstChar m) cbStr = true
            → rafWrapper test (some m) cbStr = (.orig, false))
          ∧ (test (dropFirstChar m) cbStr = false
            → rafWrapper test (some m) cbStr = (.noop, true)))
      ∧ (startsWithJS m "!" = false →
        (test m cbStr = true → rafWrapper test (some m) cbStr = (.noop, true))
          ∧ (test m cbStr = false → rafWrapper test (some m) cbStr = (.orig, false))) := by
  constructor
  · intro hneg
    constructor <;> intro ht <;> simp [rafWrapper, hneg, ht]
  · intro hpos
    constructor <;> intro ht <;> simp [rafWrapper, hpos, ht]

/-- C9 witness: search `"!check"` with substring matching.  The
callback whose text contains `check` is forwarded unchanged without a
`hit`; the callback whose text does not contain it is defused with a
`hit`. -/
theorem preventRequestAnimationFrame_invert_marker_witness :
    (startsWithJS "!check" "!" = true
        ∧ toRegExpTest (dropFirstChar "!check") "function changeFirst check" = true
        ∧ toRegExpTest (dropFirstChar "!check") "function changeSecond" = false)
      ∧ rafWrapper toRegExpTest (some "!check") "function changeFirst check" = (.orig, false)
      ∧ rafWrapper toRegExpTest (some "!check") "function changeSecond" = (.noop, true) :=
  ⟨⟨by decide, by decide, by decide⟩,
    ((preventRequestAnimationFrame_invert_marker toRegExpTest "!check"
        "function changeFirst check").1 (by decide)).1 (by decide),
    ((preventRequestAnimationFrame_invert_marker toRegExpTest "!check"
        "function changeSecond").1 (by decide)).2 (by decide)⟩

/-- C8: precondition failure is a silent no-op.  `parseWrapper`
returns the natively parsed value untouched, with no `hit`, whenever
the required-path predicate evaluates to `false`; and
`trustedClickElem` returns before installing a watcher or scheduling a
timer, with no click and no `hit`, whenever its URL/cookie
precondition block fails.  Both paths are plain returns — no
exception is raised. -/
theorem precondition_failure_silent_noop :
    (∀ (prunePaths requiredPaths : List String) (r : JVal),
        isPruningNeeded requiredPaths r = some false
          → parseWrapper prunePaths requiredPaths r = (r, false))
      ∧ (∀ (test : String → String → Bool) (href cookie selectors hrefMatch cookieMatch : String),
        trustedClickPreconditions test href cookie hrefMatch cookieMatch = false
          → trustedClickElem test href cookie selectors hrefMatch cookieMatch = none) := by
  constructor
  · intro prunePaths requiredPaths r h
    cases prunePaths with
    | nil => rfl
    | cons p pp => simp [parseWrapper, h]
  · intro test href cookie selectors hrefMatch cookieMatch h
    simp [trustedClickElem, h]

/-- C8 witness: required path `"two"` is unsatisfied on `{one:1}`, and
`parseWrapper` returns the value untouched with no `hit`; an
unsatisfied `hrefMatch` makes `trustedClickElem` return `none`. -/
theorem precondition_failure_silent_noop_witness :
    (isPruningNeeded ["two"] rootOne = some false
        ∧ parseWrapper ["one"] ["two"] rootOne = (rootOne, false))
      ∧ (trustedClickPreconditions toRegExpTest
            "https://example.org/" "" "missing-part" "" = false
        ∧ trustedClickElem toRegExpTest
            "https://example.org/" "" "#btn" "missing-part" "" = none) :=
  ⟨⟨by decide,
      precondition_failure_silent_noop.1 ["one"] ["two"] rootOne (by decide)⟩,
    ⟨by decide,
      precondition_failure_silent_noop.2 toRegExpTest
        "https://example.org/" "" "#btn" "missing-part" "" (by decide)⟩⟩
